import Mathlib

/-!
Verification of the sandbox-agent SDK's NDJSON transport, message
enrichment, tool execution and query-orchestration layers, as a shallow
embedding in Lean.

JSON values (the results of the platform `JSON.parse`) are modelled by the
inductive type `JVal`; JavaScript objects become association lists whose
lookup takes the first matching key.  Nondeterministic identifier
generation (`generateUuid`, `generateSessionId`) is modelled by passing the
fresh values as explicit parameters.
-/

/-- Model of a parsed JSON value.  Numbers are restricted to integers,
which suffices for every claim considered here. -/
inductive JVal where
  | null : JVal
  | bool : Bool → JVal
  | num : Int → JVal
  | str : String → JVal
  | arr : List JVal → JVal
  | obj : List (String × JVal) → JVal

/-- Lookup of a key in a JavaScript object, modelled as first-match lookup
in the association list. -/
def lookupKey : List (String × JVal) → String → Option JVal
  | [], _ => none
  | (k, v) :: rest, key => if k = key then some v else lookupKey rest key

/-- Property read `obj[k]`: `none` models JavaScript `undefined`. -/
def getField (v : JVal) (k : String) : Option JVal :=
  match v with
  | .obj kvs => lookupKey kvs k
  | _ => none

/-- Property write on an association list: replaces the value of the first
occurrence of the key, or appends the binding, as a JavaScript object
spread-then-override `{...o, k: x}` does. -/
def setKey : List (String × JVal) → String → JVal → List (String × JVal)
  | [], key, x => [(key, x)]
  | (k, v) :: rest, key, x =>
    if k = key then (key, x) :: rest else (k, v) :: setKey rest key x

/-- Property write `obj[k] = x` on a `JVal`; non-objects are unchanged. -/
def setField (v : JVal) (k : String) (x : JVal) : JVal :=
  match v with
  | .obj kvs => .obj (setKey kvs k x)
  | _ => v

/-- JavaScript truthiness of a JSON value (`false`, `0`, the empty string
and `null` are falsy; objects and arrays are always truthy). -/
def truthy : JVal → Bool
  | .null => false
  | .bool b => b
  | .num n => n != 0
  | .str s => s != ""
  | .arr _ => true
  | .obj _ => true

/-- Truthiness of a property read (`undefined` is falsy). -/
def truthyOpt : Option JVal → Bool
  | none => false
  | some v => truthy v

/-- Whether a property read holds a value that is truthy and of
`typeof === "object"`, i.e. a (non-null) object or an array.  This is the
test `enriched[k] && typeof enriched[k] === "object"` from the source. -/
def isTruthyObject : Option JVal → Bool
  | some (.obj _) => true
  | some (.arr _) => true
  | _ => false

/-- Escape a string for JSON serialization (quotes and backslashes; the
control-character escapes are not needed by this development). -/
def jsonEscape (s : String) : String :=
  s.data.foldl
    (fun acc c =>
      if c = '\\' then acc ++ "\\\\"
      else if c = '"' then acc ++ "\\\""
      else acc.push c)
    ""

mutual

/-- Model of `JSON.stringify` on parsed JSON values. -/
def jsonStringify : JVal → String
  | .null => "null"
  | .bool true => "true"
  | .bool false => "false"
  | .num n => toString n
  | .str s => "\"" ++ jsonEscape s ++ "\""
  | .arr xs => "[" ++ jsonStringifyArr xs ++ "]"
  | .obj kvs => "\x7b" ++ jsonStringifyObj kvs ++ "\x7d"

/-- Comma-separated serialization of array elements. -/
def jsonStringifyArr : List JVal → String
  | [] => ""
  | x :: xs =>
    match xs with
    | [] => jsonStringify x
    | _ :: _ => jsonStringify x ++ "," ++ jsonStringifyArr xs

/-- Comma-separated serialization of object entries. -/
def jsonStringifyObj : List (String × JVal) → String
  | [] => ""
  | (k, v) :: kvs =>
    match kvs with
    | [] => "\"" ++ jsonEscape k ++ "\":" ++ jsonStringify v
    | _ :: _ =>
      "\"" ++ jsonEscape k ++ "\":" ++ jsonStringify v ++ "," ++ jsonStringifyObj kvs

end

/-- Parse-level failures of the SDK, mirroring the `ParseError` class: a
structural-validation failure carries the serialized offending value, the
two `parseLine` failures carry the offending trimmed line text. -/
inductive PErr where
  | invalidStructure : String → PErr
  | jsonError : String → PErr
  | missingType : String → PErr
deriving DecidableEq, Repr

/-- The closed set of message types accepted from the CLI NDJSON output
(`VALID_MESSAGE_TYPES` in the transport). -/
def VALID_MESSAGE_TYPES : List String :=
  ["system", "user", "assistant", "result", "tool_use", "progress", "error"]

/-- Structural gate of the transport (`isValidMessageStructure`): the value
must be a non-null object whose `type` field is a string drawn from
`VALID_MESSAGE_TYPES`. -/
def isValidMessageStructure (v : JVal) : Bool :=
  match v with
  | .obj kvs =>
    match lookupKey kvs "type" with
    | some (.str t) => VALID_MESSAGE_TYPES.contains t
    | _ => false
  | _ => false

/-- Model of `SandboxTransport.enrichMessage`.  `freshUuid` and
`freshSessionId` stand for the values `generateUuid()` and
`generateSessionId()` would produce on this call; `currentSessionId` is the
transport's `this.currentSessionId` field. -/
def enrichMessage (freshUuid freshSessionId : String)
    (currentSessionId : Option String) (rawMessage : JVal) : Except PErr JVal :=
  if !isValidMessageStructure rawMessage then
    .error (.invalidStructure (jsonStringify rawMessage))
  else
    let uuidVal : JVal :=
      match getField rawMessage "uuid" with
      | some (.str u) => .str u
      | _ => .str freshUuid
    let sessionVal : JVal :=
      match getField rawMessage "session_id" with
      | some (.str s) => .str s
      | _ => .str (currentSessionId.getD freshSessionId)
    let parentVal : JVal :=
      match getField rawMessage "parent_tool_use_id" with
      | some (.str p) => .str p
      | _ => .null
    let enriched :=
      setField (setField (setField rawMessage "uuid" uuidVal)
        "session_id" sessionVal) "parent_tool_use_id" parentVal
    let messageType : String :=
      match getField enriched "type" with
      | some (.str t) => t
      | _ => ""
    let enriched2 :=
      if messageType = "assistant" ∨ messageType = "user" then
        if isTruthyObject (getField enriched "message") then enriched
        else
          setField enriched "message"
            (.obj [("role", .str messageType), ("content", .arr [])])
      else if messageType = "result" then
        match getField enriched "subtype" with
        | some (.str _) => enriched
        | _ => setField enriched "subtype" (.str "success")
      else if messageType = "error" then
        if isTruthyObject (getField enriched "error") then enriched
        else
          setField enriched "error"
            (.obj [("code", .str "UNKNOWN_ERROR"),
                   ("message", .str "Unknown error occurred")])
      else enriched
    .ok enriched2

/-- Model of `QueryImpl.enrichMessage` (the orchestrator's defensive
re-enrichment).  `freshUuid` stands for `generateUuid()`, `sessionId` for
the query's `this._sessionId`.  Field presence tests use JavaScript
truthiness (`message.uuid && message.session_id`), and the causal-parent
field uses nullish coalescing. -/
def queryEnrichMessage (freshUuid sessionId : String) (message : JVal) : JVal :=
  if truthyOpt (getField message "uuid") && truthyOpt (getField message "session_id") then
    message
  else
    let uuidVal : JVal :=
      match getField message "uuid" with
      | some v => if truthy v then v else .str freshUuid
      | none => .str freshUuid
    let sessionVal : JVal :=
      match getField message "session_id" with
      | some v => if truthy v then v else .str sessionId
      | none => .str sessionId
    let parentVal : JVal :=
      match getField message "parent_tool_use_id" with
      | some .null => .null
      | some v => v
      | none => .null
    setField (setField (setField message "uuid" uuidVal)
      "session_id" sessionVal) "parent_tool_use_id" parentVal

/-- Whitespace recognized by `String.trim` and skipped between JSON
tokens: space, tab, newline, carriage return. -/
def isWsChar (c : Char) : Bool :=
  c = ' ' || c = '\t' || c = '\n' || c = '\r'

/-- Model of JavaScript `String.prototype.trim` on a character list. -/
def trimChars (l : List Char) : List Char :=
  ((l.dropWhile isWsChar).reverse.dropWhile isWsChar).reverse

/-- Drop leading whitespace. -/
def skipWs (cs : List Char) : List Char :=
  cs.dropWhile isWsChar

/-- Left brace character, kept abstract by code point. -/
def lbrace : Char := Char.ofNat 123

/-- Right brace character, kept abstract by code point. -/
def rbrace : Char := Char.ofNat 125

/-- Decode a single JSON string escape character (the common escapes;
unicode escapes are outside the modelled subset). -/
def jUnescape (c : Char) : Option Char :=
  if c = 'n' then some '\n'
  else if c = 't' then some '\t'
  else if c = 'r' then some '\r'
  else if c = '"' ∨ c = '\\' ∨ c = '/' then some c
  else none

/-- Parse the body of a JSON string literal after its opening quote,
returning the decoded characters and the remainder after the closing
quote. -/
def jparseStringBody : List Char → Option (List Char × List Char)
  | [] => none
  | c :: cs =>
    if c = '"' then some ([], cs)
    else if c = '\\' then
      match cs with
      | [] => none
      | d :: cs2 =>
        match jUnescape d with
        | none => none
        | some e =>
          match jparseStringBody cs2 with
          | none => none
          | some (s, r) => some (e :: s, r)
    else
      match jparseStringBody cs with
      | none => none
      | some (s, r) => some (c :: s, r)

/-- Decimal digit test. -/
def jDigit (c : Char) : Bool := '0' ≤ c && c ≤ '9'

/-- Value of a list of decimal digits. -/
def digitsToNat (ds : List Char) : Nat :=
  ds.foldl (fun a c => a * 10 + (c.toNat - 48)) 0

/-- Parse a run of decimal digits. -/
def jparseNat (cs : List Char) : Option (Nat × List Char) :=
  let ds := cs.takeWhile jDigit
  if ds.isEmpty then none else some (digitsToNat ds, cs.drop ds.length)

mutual

/-- Fuel-bounded recursive-descent parser for one JSON value; the fuel
only bounds nesting and `jsonParse` always supplies enough. -/
def jparseVal : Nat → List Char → Option (JVal × List Char)
  | 0, _ => none
  | fuel + 1, cs =>
    match skipWs cs with
    | [] => none
    | c :: rest =>
      if c = '"' then
        match jparseStringBody rest with
        | none => none
        | some (s, r) => some (.str (String.mk s), r)
      else if c = '[' then
        match skipWs rest with
        | ']' :: r2 => some (.arr [], r2)
        | _ =>
          match jparseArrItems fuel rest with
          | none => none
          | some (xs, r) => some (.arr xs, r)
      else if c = lbrace then
        match skipWs rest with
        | [] => none
        | d :: r2 =>
          if d = rbrace then some (.obj [], r2)
          else
            match jparseObjItems fuel rest with
            | none => none
            | some (kvs, r) => some (.obj kvs, r)
      else if c = 't' then
        match rest with
        | 'r' :: 'u' :: 'e' :: r => some (.bool true, r)
        | _ => none
      else if c = 'f' then
        match rest with
        | 'a' :: 'l' :: 's' :: 'e' :: r => some (.bool false, r)
        | _ => none
      else if c = 'n' then
        match rest with
        | 'u' :: 'l' :: 'l' :: r => some (.null, r)
        | _ => none
      else if c = '-' then
        match jparseNat rest with
        | none => none
        | some (n, r) => some (.num (-(n : Int)), r)
      else if jDigit c then
        match jparseNat (c :: rest) with
        | none => none
        | some (n, r) => some (.num (n : Int), r)
      else none

/-- Parse the elements of a non-empty JSON array after its opening
bracket. -/
def jparseArrItems : Nat → List Char → Option (List JVal × List Char)
  | 0, _ => none
  | fuel + 1, cs =>
    match jparseVal fuel cs with
    | none => none
    | some (v, r) =>
      match skipWs r with
      | ',' :: r2 =>
        match jparseArrItems fuel r2 with
        | none => none
        | some (xs, r3) => some (v :: xs, r3)
      | ']' :: r2 => some ([v], r2)
      | _ => none

/-- Parse the entries of a non-empty JSON object after its opening
brace. -/
def jparseObjItems : Nat → List Char → Option (List (String × JVal) × List Char)
  | 0, _ => none
  | fuel + 1, cs =>
    match skipWs cs with
    | '"' :: r =>
      match jparseStringBody r with
      | none => none
      | some (k, r2) =>
        match skipWs r2 with
        | ':' :: r3 =>
          match jparseVal fuel r3 with
          | none => none
          | some (v, r4) =>
            match skipWs r4 with
            | [] => none
            | d :: r5 =>
              if d = ',' then
                match jparseObjItems fuel r5 with
                | none => none
                | some (kvs, r6) => some ((String.mk k, v) :: kvs, r6)
              else if d = rbrace then some ([(String.mk k, v)], r5)
              else none
        | _ => none
    | _ => none

end

/-- Model of the platform `JSON.parse` primitive over the JSON subset used
in this development (integer numerals, the six common string escapes, no
exponent or fraction forms); `none` models a thrown `SyntaxError`. -/
def jsonParse (cs : List Char) : Option JVal :=
  match jparseVal (2 * cs.length + 2) cs with
  | none => none
  | some (v, r) => if skipWs r = [] then some v else none

/-- Model of `parseLine` from the NDJSON protocol module: blank lines map
to `none`, JSON failures and parsed values without a `type` key raise
`ParseError`s carrying the trimmed line text. -/
def parseLine (line : List Char) : Except PErr (Option JVal) :=
  let trimmed := trimChars line
  if trimmed.isEmpty then .ok none
  else
    match jsonParse trimmed with
    | none => .error (.jsonError (String.mk trimmed))
    | some v =>
      match v with
      | .obj kvs =>
        if (lookupKey kvs "type").isSome then .ok (some (.obj kvs))
        else .error (.missingType (String.mk trimmed))
      | _ => .error (.missingType (String.mk trimmed))

/-- State of the streaming NDJSON parser: the pending partial line and the
messages yielded so far. -/
structure StreamState where
  buffer : List Char
  out : List JVal

/-- Model of JavaScript `String.prototype.split` at a newline separator. -/
def splitNl : List Char → List (List Char)
  | [] => [[]]
  | c :: cs =>
    if c = '\n' then [] :: splitNl cs
    else
      match splitNl cs with
      | [] => [[c]]
      | p :: ps => (c :: p) :: ps

/-- Process all complete lines of a split buffer (every element except the
last), returning the yielded messages and the retained last element, as
the `lines.pop()` / `for (const line of lines)` loop does. -/
def consumeParts (out : List JVal) : List (List Char) → Except PErr (List JVal × List Char)
  | [] => .ok (out, [])
  | l :: rest =>
    match rest with
    | [] => .ok (out, l)
    | _ :: _ =>
      match parseLine l with
      | .error e => .error e
      | .ok none => consumeParts out rest
      | .ok (some m) => consumeParts (out ++ [m]) rest

/-- One read of the stream loop of `parseNDJSONStream`: append the decoded
chunk to the buffer, split at newlines, parse every complete line and keep
the trailing partial line. -/
def feedChunk (s : StreamState) (chunk : List Char) : Except PErr StreamState :=
  match consumeParts s.out (splitNl (s.buffer ++ chunk)) with
  | .error e => .error e
  | .ok (out, buf) => .ok ⟨buf, out⟩

/-- Feed a sequence of read chunks through the stream loop. -/
def feedChunks (s : StreamState) : List (List Char) → Except PErr StreamState
  | [] => .ok s
  | c :: cs =>
    match feedChunk s c with
    | .error e => .error e
    | .ok s2 => feedChunks s2 cs

/-- End-of-stream handling of `parseNDJSONStream`: flush a non-blank
trailing unterminated line. -/
def finishStream (s : StreamState) : Except PErr (List JVal) :=
  if (trimChars s.buffer).isEmpty then .ok s.out
  else
    match parseLine s.buffer with
    | .error e => .error e
    | .ok none => .ok s.out
    | .ok (some m) => .ok (s.out ++ [m])

/-- Model of `parseNDJSONStream`: the byte stream is presented as the list
of decoded read chunks. -/
def parseNDJSONStream (chunks : List (List Char)) : Except PErr (List JVal) :=
  match feedChunks ⟨[], []⟩ chunks with
  | .error e => .error e
  | .ok s => finishStream s

/-- Concatenation of the read chunks of a stream. -/
def concatChunks : List (List Char) → List Char
  | [] => []
  | c :: cs => c ++ concatChunks cs

/-- NDJSON wire encoding of a list of lines: the lines joined by single
newline characters (no trailing newline; a trailing newline is obtained by
appending a final blank line). -/
def joinLines : List (List Char) → List Char
  | [] => []
  | l :: rest =>
    match rest with
    | [] => l
    | _ :: _ => l ++ '\n' :: joinLines rest

/-- Relation between a list of NDJSON input lines and the messages they
denote: blank lines contribute nothing, and every other line must parse to
a message. -/
inductive LinesYield : List (List Char) → List JVal → Prop where
  | nil : LinesYield [] []
  | blank (l : List Char) (ls : List (List Char)) (ms : List JVal) :
      trimChars l = [] → LinesYield ls ms → LinesYield (l :: ls) ms
  | msg (l : List Char) (ls : List (List Char)) (m : JVal) (ms : List JVal) :
      parseLine l = .ok (some m) → LinesYield ls ms → LinesYield (l :: ls) (m :: ms)

example : jsonParse ("\x7b\"type\":42\x7d".toList) = some (.obj [("type", .num 42)]) := by
  rfl

example : parseLine ("  \x7b\"type\":\"result\"\x7d  ".toList) =
    .ok (some (.obj [("type", .str "result")])) := by rfl

example : parseNDJSONStream ["\x7b\"a".toList, "\":1,\"type\":true\x7d\n\x7b\"type\":null\x7d".toList] =
    .ok [.obj [("a", .num 1), ("type", .bool true)], .obj [("type", .null)]] := by rfl

/-- Content block of a tool result (text / image / resource). -/
inductive ToolBlock where
  | text : String → ToolBlock
  | image : String → String → ToolBlock
  | resource : String → ToolBlock
deriving DecidableEq, Repr

/-- Uniform tool result shape: content blocks plus an optional error
flag. -/
structure ToolResult where
  content : List ToolBlock
  isError : Option Bool := none
deriving DecidableEq, Repr

/-- One issue reported by schema validation: a field path and a reason. -/
structure ZodIssue where
  path : List String
  message : String
deriving DecidableEq, Repr

/-- Outcome of `schema.safeParse`: typed data on success, a non-empty list
of issues on failure. -/
inductive SafeParseOutcome where
  | success : JVal → SafeParseOutcome
  | failure : List ZodIssue → SafeParseOutcome

/-- A value thrown by JavaScript code: an `Error` carrying a message, or
any non-`Error` value. -/
inductive Thrown where
  | err : String → Thrown
  | nonErr : Thrown

/-- Message extraction `error instanceof Error ? error.message : "Unknown
error"` applied to a thrown value. -/
def thrownMessage : Thrown → String
  | .err m => m
  | .nonErr => "Unknown error"

/-- Tool definition: name, description, the declared schema validation
capability, and the handler.  The schema-validation library is the
external capability "validate a value against a schema, produce typed
errors"; a handler that throws is modelled by `Except.error`. -/
structure ToolDefinition where
  name : String
  description : String
  safeParse : JVal → SafeParseOutcome
  handler : JVal → Except Thrown ToolResult

/-- Model of `executeTool` from the tool module: schema-validation failure
and handler exceptions are converted to non-throwing `isError` results;
the function is total, so no exception ever propagates. -/
def executeTool (tool : ToolDefinition) (input : JVal) : ToolResult :=
  match tool.safeParse input with
  | .failure issues =>
    let errors := String.intercalate ", "
      (issues.map (fun e => String.intercalate "." e.path ++ ": " ++ e.message))
    { content := [.text ("Validation error: " ++ errors)], isError := some true }
  | .success data =>
    match tool.handler data with
    | .ok result => result
    | .error thrown =>
      { content := [.text ("Tool execution error: " ++ thrownMessage thrown)],
        isError := some true }

/-- Resolution `this.options.maxTurns ?? 10` of the turn budget. -/
def resolveMaxTurns (maxTurns : Option Nat) : Nat :=
  maxTurns.getD 10

/-- Body of the turn loop of `QueryImpl.run`, counting executed turns.
`reqsAt n` is the number of tool-call requests
`parseToolRequestsFromText` extracts from the assistant text of turn `n`
(turns are numbered from 1); `toolCount` is the number of configured
tools; the first argument is the remaining turn budget
`maxTurns - turn`.  Interruption is not triggered in the runs the claims
quantify over, so the `isInterrupted` tests are constantly false. -/
def turnLoopAux (reqsAt : Nat → Nat) (toolCount : Nat) : Nat → Nat → Nat
  | 0, _ => 0
  | remaining + 1, turn =>
    if reqsAt (turn + 1) = 0 || toolCount = 0 then 1
    else 1 + turnLoopAux reqsAt toolCount remaining (turn + 1)

/-- Number of turns the orchestrator's `while (turn < maxTurns)` loop
executes. -/
def turnsExecuted (reqsAt : Nat → Nat) (toolCount maxTurns : Nat) : Nat :=
  turnLoopAux reqsAt toolCount maxTurns 0

/-- Snapshot modes of the advanced `SnapshotOptions`. -/
inductive SnapMode where
  | never
  | onSuccess
  | always
  | onDemand
deriving DecidableEq, Repr

/-- Resolution `queryArgs.snapshotEnabled ?? true` performed by the
`QueryImpl` constructor. -/
def resolveSnapshotEnabled (snapshotEnabled : Option Bool) : Bool :=
  snapshotEnabled.getD true

/-- Decision of `QueryImpl.handleSnapshot`: whether an automatic snapshot
is created after the run.  `connected` is `this.transport.connected` at
teardown time, `snapshotOptions` the advanced options' mode if provided,
`snapshotEnabled` the resolved boolean flag, `success` the run
outcome. -/
def shouldSnapshot (connected : Bool) (snapshotOptions : Option SnapMode)
    (snapshotEnabled success : Bool) : Bool :=
  if !connected then false
  else
    match snapshotOptions with
    | some mode =>
      decide (mode = .always) || (decide (mode = .onSuccess) && success)
    | none => snapshotEnabled && success

/-- Observable effects of `QueryImpl.handleTeardownAndLifecycle`. -/
structure TeardownOutcome where
  hookInvoked : Bool
  closeInvoked : Bool
  errorRaised : Bool
deriving DecidableEq, Repr

/-- Model of `QueryImpl.handleTeardownAndLifecycle`: the teardown hook
runs when provided and the transport is still connected; `hookThrows`
says whether that hook invocation throws.  `handleSnapshot` and
`transport.close` catch their own internal failures, so the only failure
that can reach the surrounding `try` is the hook's.  The `catch` logs and
returns, so no error is ever re-raised. -/
def handleTeardownAndLifecycle (hookPresent connected hookThrows : Bool) :
    TeardownOutcome :=
  if hookPresent && connected then
    if hookThrows then
      { hookInvoked := true, closeInvoked := false, errorRaised := false }
    else
      { hookInvoked := true, closeInvoked := true, errorRaised := false }
  else
    { hookInvoked := false, closeInvoked := true, errorRaised := false }

/-- Example tool used to witness the tool-execution properties: its schema
capability accepts exactly objects of two numeric fields `a`, `b`, and its
handler throws. -/
def calcToolModel : ToolDefinition where
  name := "calculator"
  description := "Perform basic arithmetic calculations"
  safeParse := fun v =>
    match v with
    | .obj [("a", .num a), ("b", .num b)] => .success (.obj [("a", .num a), ("b", .num b)])
    | _ => .failure [⟨["a"], "Expected number, received string"⟩]
  handler := fun _ => .error (.err "boom")

/-- C5: for every tool and input, a schema-validation failure yields a
non-thrown result with `isError: true` whose text lists each offending
field path and reason; a validated input has the handler's return value
passed through unchanged; a throwing handler yields a non-thrown
`isError: true` result whose text contains the thrown message.
`executeTool` is a total function into `ToolResult`, so no exception ever
propagates to the caller. -/
theorem executeTool_spec (tool : ToolDefinition) (input : JVal) :
    (∀ issues, tool.safeParse input = .failure issues →
      executeTool tool input =
        { content := [.text ("Validation error: " ++ String.intercalate ", "
            (issues.map (fun e => String.intercalate "." e.path ++ ": " ++ e.message)))],
          isError := some true }) ∧
    (∀ data res, tool.safeParse input = .success data →
      tool.handler data = .ok res → executeTool tool input = res) ∧
    (∀ data thrown, tool.safeParse input = .success data →
      tool.handler data = .error thrown →
      executeTool tool input =
        { content := [.text ("Tool execution error: " ++ thrownMessage thrown)],
          isError := some true } ∧
      ∃ pre post,
        "Tool execution error: " ++ thrownMessage thrown =
          pre ++ thrownMessage thrown ++ post) := by
  refine ⟨?_, ?_, ?_⟩
  · intro issues h
    simp [executeTool, h]
  · intro data res h1 h2
    simp [executeTool, h1, h2]
  · intro data thrown h1 h2
    refine ⟨by simp [executeTool, h1, h2], "Tool execution error: ", "", by simp⟩

/-- Witness for the tool-execution properties at the example tool: a
schema-failing input produces the validation-error result, and a throwing
handler produces the execution-error result. -/
theorem executeTool_spec_witness :
    executeTool calcToolModel (.obj [("a", .str "x"), ("b", .num 3)]) =
      { content := [.text "Validation error: a: Expected number, received string"],
        isError := some true } ∧
    executeTool calcToolModel (.obj [("a", .num 1), ("b", .num 2)]) =
      { content := [.text "Tool execution error: boom"], isError := some true } :=
  ⟨(executeTool_spec calcToolModel (.obj [("a", .str "x"), ("b", .num 3)])).1
      [⟨["a"], "Expected number, received string"⟩] rfl,
   ((executeTool_spec calcToolModel (.obj [("a", .num 1), ("b", .num 2)])).2.2
      (.obj [("a", .num 1), ("b", .num 2)]) (.err "boom") rfl rfl).1⟩

/-- C6: with the transport still connected at teardown, an automatic
snapshot is created iff advanced options are present with mode `always`,
or present with mode `on-success` on a successful run, or absent with the
resolved boolean flag (default `true`) set on a successful run; modes
`never` and `on-demand` never create one automatically. -/
theorem snapshotPolicy_spec (snapshotOptions : Option SnapMode)
    (snapshotEnabledArg : Option Bool) (success : Bool) :
    (shouldSnapshot true snapshotOptions (resolveSnapshotEnabled snapshotEnabledArg) success = true ↔
      (snapshotOptions = some .always ∨
        (snapshotOptions = some .onSuccess ∧ success = true) ∨
        (snapshotOptions = none ∧ resolveSnapshotEnabled snapshotEnabledArg = true ∧
          success = true))) ∧
    resolveSnapshotEnabled none = true := by
  refine ⟨?_, rfl⟩
  cases snapshotOptions with
  | none =>
    cases h : resolveSnapshotEnabled snapshotEnabledArg <;>
      cases success <;> simp [shouldSnapshot, h]
  | some mode => cases mode <;> cases success <;> simp [shouldSnapshot]

/-- C7: the code contradicts the claim (and its own comment "Always close
the transport when done"): when a teardown hook is present, the transport
is connected and the hook throws, the outer catch swallows the error and
`transport.close()` is never invoked, so the execution context is not
released; teardown errors are indeed never re-raised. -/
theorem teardown_close_skipped_on_hook_throw :
    handleTeardownAndLifecycle true true true =
      { hookInvoked := true, closeInvoked := false, errorRaised := false } ∧
    (∀ hookPresent connected hookThrows,
      (handleTeardownAndLifecycle hookPresent connected hookThrows).errorRaised = false) := by
  refine ⟨rfl, ?_⟩
  intro hookPresent connected hookThrows
  cases hookPresent <;> cases connected <;> cases hookThrows <;> rfl

/-- Counterexample to C4 as stated: with zero configured tools and
`maxTurns: 0`, the loop `while (turn < maxTurns)` performs zero turns, not
exactly one, however many tool requests the (never-consulted) assistant
text would contain. -/
theorem turnLoop_zero_budget_cex :
    turnsExecuted (fun _ => 1) 0 0 = 0 ∧ (0 : Nat) ≠ 1 := by decide

/-- C4 as amended: with zero configured tools the loop performs exactly
one turn whenever the resolved turn budget is at least 1 (in particular at
the default of 10), and zero turns when the budget is 0; with a budget of
1 at most one turn executes whatever tool requests appear. -/
theorem turnLoop_termination (reqsAt : Nat → Nat) (toolCount maxTurns : Nat) :
    (1 ≤ maxTurns → turnsExecuted reqsAt 0 maxTurns = 1) ∧
    turnsExecuted reqsAt toolCount 0 = 0 ∧
    turnsExecuted reqsAt toolCount 1 ≤ 1 := by
  refine ⟨?_, rfl, ?_⟩
  · intro h
    obtain ⟨r, rfl⟩ : ∃ r, maxTurns = r + 1 :=
      ⟨maxTurns - 1, by omega⟩
    simp [turnsExecuted, turnLoopAux]
  · by_cases h : reqsAt 1 = 0 || toolCount = 0 <;>
      simp [turnsExecuted, turnLoopAux, h]

/-- Witness for the amended turn-loop bounds at the default budget of 10
and at a budget of 1 with pending tool requests. -/
theorem turnLoop_termination_witness :
    turnsExecuted (fun _ => 1) 0 (resolveMaxTurns none) = 1 ∧
    turnsExecuted (fun _ => 1) 5 1 ≤ 1 :=
  ⟨(turnLoop_termination (fun _ => 1) 0 (resolveMaxTurns none)).1 (by decide),
   (turnLoop_termination (fun _ => 1) 5 1).2.2⟩

theorem lookupKey_setKey_self (kvs : List (String × JVal)) (key : String) (x : JVal) :
    lookupKey (setKey kvs key x) key = some x := by
  induction kvs with
  | nil => simp [setKey, lookupKey]
  | cons kv rest ih =>
    obtain ⟨k1, v1⟩ := kv
    by_cases h : k1 = key
    · simp [setKey, h, lookupKey]
    · simp [setKey, h, lookupKey, ih]

theorem lookupKey_setKey_ne (kvs : List (String × JVal)) (key k : String) (x : JVal)
    (h : k ≠ key) : lookupKey (setKey kvs key x) k = lookupKey kvs k := by
  induction kvs with
  | nil => simp [setKey, lookupKey, Ne.symm h]
  | cons kv rest ih =>
    obtain ⟨k1, v1⟩ := kv
    by_cases h1 : k1 = key
    · subst h1
      simp [setKey, lookupKey, Ne.symm h]
    · by_cases h2 : k1 = k <;> simp [setKey, lookupKey, h1, h2, ih, h]

theorem getField_setField_ne (o : JVal) (key k : String) (x : JVal) (h : k ≠ key) :
    getField (setField o key x) k = getField o k := by
  cases o <;> simp [setField, getField]
  exact lookupKey_setKey_ne _ _ _ _ h

theorem getField_setField_self (kvs : List (String × JVal)) (key : String) (x : JVal) :
    getField (setField (.obj kvs) key x) key = some x := by
  simp [setField, getField, lookupKey_setKey_self]

/-- Identity-enrichment stage of `SandboxTransport.enrichMessage`: the
spread `{...msg, uuid: ..., session_id: ..., parent_tool_use_id: ...}`. -/
def identityStep (freshUuid freshSessionId : String)
    (currentSessionId : Option String) (rawMessage : JVal) : JVal :=
  let uuidVal : JVal :=
    match getField rawMessage "uuid" with
    | some (.str u) => .str u
    | _ => .str freshUuid
  let sessionVal : JVal :=
    match getField rawMessage "session_id" with
    | some (.str s) => .str s
    | _ => .str (currentSessionId.getD freshSessionId)
  let parentVal : JVal :=
    match getField rawMessage "parent_tool_use_id" with
    | some (.str p) => .str p
    | _ => .null
  setField (setField (setField rawMessage "uuid" uuidVal)
    "session_id" sessionVal) "parent_tool_use_id" parentVal

/-- Per-type defaulting stage of `SandboxTransport.enrichMessage` (the
`switch (messageType)` block). -/
def perTypeStep (enriched : JVal) : JVal :=
  let messageType : String :=
    match getField enriched "type" with
    | some (.str t) => t
    | _ => ""
  if messageType = "assistant" ∨ messageType = "user" then
    if isTruthyObject (getField enriched "message") then enriched
    else
      setField enriched "message"
        (.obj [("role", .str messageType), ("content", .arr [])])
  else if messageType = "result" then
    match getField enriched "subtype" with
    | some (.str _) => enriched
    | _ => setField enriched "subtype" (.str "success")
  else if messageType = "error" then
    if isTruthyObject (getField enriched "error") then enriched
    else
      setField enriched "error"
        (.obj [("code", .str "UNKNOWN_ERROR"),
               ("message", .str "Unknown error occurred")])
  else enriched

theorem enrichMessage_decomp (fu fs : String) (cur : Option String) (raw : JVal) :
    enrichMessage fu fs cur raw =
      if isValidMessageStructure raw then
        .ok (perTypeStep (identityStep fu fs cur raw))
      else .error (.invalidStructure (jsonStringify raw)) := by
  by_cases h : isValidMessageStructure raw <;>
    simp [enrichMessage, identityStep, perTypeStep, h]

theorem identityStep_uuid (fu fs : String) (cur : Option String)
    (kvs : List (String × JVal)) :
    getField (identityStep fu fs cur (.obj kvs)) "uuid" =
      some (match lookupKey kvs "uuid" with
            | some (.str u) => .str u
            | _ => .str fu) := by
  simp only [identityStep, setField, getField]
  rw [lookupKey_setKey_ne _ _ _ _ (by decide),
      lookupKey_setKey_ne _ _ _ _ (by decide),
      lookupKey_setKey_self]

theorem identityStep_session (fu fs : String) (cur : Option String)
    (kvs : List (String × JVal)) :
    getField (identityStep fu fs cur (.obj kvs)) "session_id" =
      some (match lookupKey kvs "session_id" with
            | some (.str s) => .str s
            | _ => .str (cur.getD fs)) := by
  simp only [identityStep, setField, getField]
  rw [lookupKey_setKey_ne _ _ _ _ (by decide),
      lookupKey_setKey_self]

theorem identityStep_parent (fu fs : String) (cur : Option String)
    (kvs : List (String × JVal)) :
    getField (identityStep fu fs cur (.obj kvs)) "parent_tool_use_id" =
      some (match lookupKey kvs "parent_tool_use_id" with
            | some (.str p) => .str p
            | _ => .null) := by
  simp only [identityStep, setField, getField]
  rw [lookupKey_setKey_self]

theorem identityStep_other (fu fs : String) (cur : Option String)
    (kvs : List (String × JVal)) (k : String)
    (h1 : k ≠ "uuid") (h2 : k ≠ "session_id") (h3 : k ≠ "parent_tool_use_id") :
    getField (identityStep fu fs cur (.obj kvs)) k = lookupKey kvs k := by
  simp only [identityStep, setField, getField]
  rw [lookupKey_setKey_ne _ _ _ _ h3, lookupKey_setKey_ne _ _ _ _ h2,
      lookupKey_setKey_ne _ _ _ _ h1]

theorem identityStep_obj (fu fs : String) (cur : Option String)
    (kvs : List (String × JVal)) :
    ∃ okvs, identityStep fu fs cur (.obj kvs) = .obj okvs := by
  simp only [identityStep, setField]
  exact ⟨_, rfl⟩

/-- The field that the per-type defaulting stage may synthesize for each
message type. -/
def defaultedFields (t : String) : List String :=
  if t = "assistant" ∨ t = "user" then ["message"]
  else if t = "result" then ["subtype"]
  else if t = "error" then ["error"]
  else []

theorem perTypeStep_preserves (o : JVal) (t : String)
    (ht : getField o "type" = some (.str t)) (k : String)
    (hk : k ∉ defaultedFields t) :
    getField (perTypeStep o) k = getField o k := by
  simp only [perTypeStep, ht]
  by_cases h1 : t = "assistant" ∨ t = "user"
  · have hk1 : k ≠ "message" := by
      simpa [defaultedFields, h1] using hk
    simp only [if_pos h1]
    by_cases h2 : isTruthyObject (getField o "message") <;>
      simp [h2, getField_setField_ne _ _ _ _ hk1]
  · simp only [if_neg h1]
    by_cases h2 : t = "result"
    · have hk2 : k ≠ "subtype" := by
        simpa [defaultedFields, h1, h2] using hk
      simp only [if_pos h2]
      match hsub : getField o "subtype" with
      | some (.str s) => simp
      | none => simp [getField_setField_ne _ _ _ _ hk2]
      | some .null => simp [getField_setField_ne _ _ _ _ hk2]
      | some (.bool b) => simp [getField_setField_ne _ _ _ _ hk2]
      | some (.num n) => simp [getField_setField_ne _ _ _ _ hk2]
      | some (.arr a) => simp [getField_setField_ne _ _ _ _ hk2]
      | some (.obj kv) => simp [getField_setField_ne _ _ _ _ hk2]
    · simp only [if_neg h2]
      by_cases h3 : t = "error"
      · have hk3 : k ≠ "error" := by
          simpa [defaultedFields, h1, h2, h3] using hk
        simp only [if_pos h3]
        by_cases h4 : isTruthyObject (getField o "error") <;>
          simp [h4, getField_setField_ne _ _ _ _ hk3]
      · simp [if_neg h3]

theorem notMem_defaultedFields (t k : String) (h1 : k ≠ "message")
    (h2 : k ≠ "subtype") (h3 : k ≠ "error") : k ∉ defaultedFields t := by
  unfold defaultedFields
  split_ifs <;> simp [h1, h2, h3]

theorem perTypeStep_message_default (okvs : List (String × JVal)) (t : String)
    (ht : lookupKey okvs "type" = some (.str t))
    (h1 : t = "assistant" ∨ t = "user")
    (hm : isTruthyObject (lookupKey okvs "message") = false) :
    getField (perTypeStep (.obj okvs)) "message" =
      some (.obj [("role", .str t), ("content", .arr [])]) := by
  simp only [perTypeStep, getField, ht]
  rw [if_pos h1]
  simp only [hm, Bool.false_eq_true, if_false]
  exact getField_setField_self _ _ _

theorem perTypeStep_subtype_default (okvs : List (String × JVal))
    (ht : lookupKey okvs "type" = some (.str "result"))
    (hs : ∀ s, lookupKey okvs "subtype" ≠ some (.str s)) :
    getField (perTypeStep (.obj okvs)) "subtype" = some (.str "success") := by
  match hsub : lookupKey okvs "subtype" with
  | none => simp [perTypeStep, getField, setField, ht, hsub, lookupKey_setKey_self]
  | some (.str s) => exact absurd hsub (hs s)
  | some .null => simp [perTypeStep, getField, setField, ht, hsub, lookupKey_setKey_self]
  | some (.bool b) => simp [perTypeStep, getField, setField, ht, hsub, lookupKey_setKey_self]
  | some (.num n) => simp [perTypeStep, getField, setField, ht, hsub, lookupKey_setKey_self]
  | some (.arr a) => simp [perTypeStep, getField, setField, ht, hsub, lookupKey_setKey_self]
  | some (.obj kv) => simp [perTypeStep, getField, setField, ht, hsub, lookupKey_setKey_self]

theorem perTypeStep_error_default (okvs : List (String × JVal))
    (ht : lookupKey okvs "type" = some (.str "error"))
    (he : isTruthyObject (lookupKey okvs "error") = false) :
    getField (perTypeStep (.obj okvs)) "error" =
      some (.obj [("code", .str "UNKNOWN_ERROR"),
                  ("message", .str "Unknown error occurred")]) := by
  simp [perTypeStep, getField, setField, ht, he, lookupKey_setKey_self]

theorem strChoice_ex (o : Option JVal) (d : String) :
    ∃ u, (match o with
          | some (JVal.str x) => JVal.str x
          | _ => JVal.str d) = JVal.str u := by
  match o with
  | none => exact ⟨d, rfl⟩
  | some (.str x) => exact ⟨x, rfl⟩
  | some .null => exact ⟨d, rfl⟩
  | some (.bool b) => exact ⟨d, rfl⟩
  | some (.num n) => exact ⟨d, rfl⟩
  | some (.arr a) => exact ⟨d, rfl⟩
  | some (.obj kv) => exact ⟨d, rfl⟩

theorem parentChoice_cases (o : Option JVal) :
    (∃ p, (match o with
           | some (JVal.str x) => JVal.str x
           | _ => JVal.null) = JVal.str p) ∨
    (match o with
     | some (JVal.str x) => JVal.str x
     | _ => JVal.null) = JVal.null := by
  match o with
  | none => right ; rfl
  | some (.str x) => exact .inl ⟨x, rfl⟩
  | some .null => right ; rfl
  | some (.bool b) => right ; rfl
  | some (.num n) => right ; rfl
  | some (.arr a) => right ; rfl
  | some (.obj kv) => right ; rfl

theorem valid_of_type_mem (kvs : List (String × JVal)) (t : String)
    (ht : lookupKey kvs "type" = some (.str t)) (hmem : t ∈ VALID_MESSAGE_TYPES) :
    isValidMessageStructure (.obj kvs) = true := by
  have : VALID_MESSAGE_TYPES.contains t = true := by
    rcases (by simpa [VALID_MESSAGE_TYPES] using hmem :
      t = "system" ∨ t = "user" ∨ t = "assistant" ∨ t = "result" ∨
        t = "tool_use" ∨ t = "progress" ∨ t = "error") with
      rfl | rfl | rfl | rfl | rfl | rfl | rfl <;> decide
  simp [isValidMessageStructure, ht, this, hmem]

/-- C1: for every raw parsed value that is a non-null object whose `type`
field is a string in the closed message-type set, the transport's
`enrichMessage` returns (rather than throws) a message whose `uuid` is a
string, whose `session_id` is a string, and whose `parent_tool_use_id` is
a string or null, never absent; moreover an `assistant` or `user` input
lacking an object `message` field gains `{role: <type>, content: []}`, a
`result` input lacking a string `subtype` gains `"success"`, and an
`error` input lacking an object `error` field gains
`{code: "UNKNOWN_ERROR", message: "Unknown error occurred"}`. -/
theorem enrichMessage_base_fields (fu fs : String) (cur : Option String)
    (kvs : List (String × JVal)) (t : String)
    (ht : lookupKey kvs "type" = some (.str t))
    (hmem : t ∈ VALID_MESSAGE_TYPES) :
    ∃ out, enrichMessage fu fs cur (.obj kvs) = .ok out ∧
      (∃ u, getField out "uuid" = some (.str u)) ∧
      (∃ s, getField out "session_id" = some (.str s)) ∧
      ((∃ p, getField out "parent_tool_use_id" = some (.str p)) ∨
        getField out "parent_tool_use_id" = some .null) ∧
      ((t = "assistant" ∨ t = "user") →
        isTruthyObject (lookupKey kvs "message") = false →
        getField out "message" = some (.obj [("role", .str t), ("content", .arr [])])) ∧
      (t = "result" → (∀ s, lookupKey kvs "subtype" ≠ some (.str s)) →
        getField out "subtype" = some (.str "success")) ∧
      (t = "error" → isTruthyObject (lookupKey kvs "error") = false →
        getField out "error" = some (.obj [("code", .str "UNKNOWN_ERROR"),
          ("message", .str "Unknown error occurred")])) := by
  have hvalid := valid_of_type_mem kvs t ht hmem
  obtain ⟨okvs, hobj⟩ := identityStep_obj fu fs cur kvs
  have htypeE : getField (identityStep fu fs cur (.obj kvs)) "type" = some (.str t) := by
    rw [identityStep_other fu fs cur kvs "type" (by decide) (by decide) (by decide)]
    exact ht
  have htypeO : lookupKey okvs "type" = some (.str t) := by
    have := htypeE
    rw [hobj] at this
    exact this
  refine ⟨perTypeStep (identityStep fu fs cur (.obj kvs)), ?_, ?_, ?_, ?_, ?_, ?_, ?_⟩
  · rw [enrichMessage_decomp]
    simp [hvalid]
  · rw [perTypeStep_preserves _ t htypeE "uuid"
      (notMem_defaultedFields t "uuid" (by decide) (by decide) (by decide))]
    rw [identityStep_uuid]
    obtain ⟨u, hu⟩ := strChoice_ex (lookupKey kvs "uuid") fu
    exact ⟨u, by rw [hu]⟩
  · rw [perTypeStep_preserves _ t htypeE "session_id"
      (notMem_defaultedFields t "session_id" (by decide) (by decide) (by decide))]
    rw [identityStep_session]
    obtain ⟨s, hs⟩ := strChoice_ex (lookupKey kvs "session_id") (cur.getD fs)
    exact ⟨s, by rw [hs]⟩
  · rw [perTypeStep_preserves _ t htypeE "parent_tool_use_id"
      (notMem_defaultedFields t "parent_tool_use_id" (by decide) (by decide) (by decide))]
    rw [identityStep_parent]
    rcases parentChoice_cases (lookupKey kvs "parent_tool_use_id") with ⟨p, hp⟩ | hp
    · exact .inl ⟨p, by rw [hp]⟩
    · exact .inr (by rw [hp])
  · intro h1 hm
    have hmO : isTruthyObject (lookupKey okvs "message") = false := by
      have heq : lookupKey okvs "message" = lookupKey kvs "message" := by
        have := identityStep_other fu fs cur kvs "message"
          (by decide) (by decide) (by decide)
        rw [hobj] at this
        exact this
      rw [heq]
      exact hm
    rw [hobj]
    exact perTypeStep_message_default okvs t htypeO h1 hmO
  · intro h1 hs
    subst h1
    have hsO : ∀ s, lookupKey okvs "subtype" ≠ some (.str s) := by
      intro s
      have heq : lookupKey okvs "subtype" = lookupKey kvs "subtype" := by
        have := identityStep_other fu fs cur kvs "subtype"
          (by decide) (by decide) (by decide)
        rw [hobj] at this
        exact this
      rw [heq]
      exact hs s
    rw [hobj]
    exact perTypeStep_subtype_default okvs htypeO hsO
  · intro h1 he
    subst h1
    have heO : isTruthyObject (lookupKey okvs "error") = false := by
      have heq : lookupKey okvs "error" = lookupKey kvs "error" := by
        have := identityStep_other fu fs cur kvs "error"
          (by decide) (by decide) (by decide)
        rw [hobj] at this
        exact this
      rw [heq]
      exact he
    rw [hobj]
    exact perTypeStep_error_default okvs htypeO heO

/-- Witness for the base-field enrichment theorem at the concrete input
`{"type":"result"}`: the result gains a `"success"` subtype. -/
theorem enrichMessage_base_fields_witness :
    ∃ out, enrichMessage "u1" "s1" none (.obj [("type", .str "result")]) = .ok out ∧
      getField out "subtype" = some (.str "success") := by
  obtain ⟨out, hok, _, _, _, _, hsub, _⟩ :=
    enrichMessage_base_fields "u1" "s1" none [("type", .str "result")] "result"
      rfl (by decide)
  exact ⟨out, hok, hsub rfl (by intro s h; simp [lookupKey] at h)⟩

/-- C2: for every input that is null, not an object, lacks a `type` field,
has a non-string `type`, or has a string `type` outside the closed set,
the transport's `enrichMessage` throws a structural `ParseError` carrying
the serialized offending value, and never returns a message. -/
theorem enrichMessage_rejects (fu fs : String) (cur : Option String) (v : JVal)
    (h : (∀ kvs, v ≠ .obj kvs) ∨
      (∃ kvs, v = .obj kvs ∧ lookupKey kvs "type" = none) ∨
      (∃ kvs tv, v = .obj kvs ∧ lookupKey kvs "type" = some tv ∧ ∀ s, tv ≠ .str s) ∨
      (∃ kvs s, v = .obj kvs ∧ lookupKey kvs "type" = some (.str s) ∧
        s ∉ VALID_MESSAGE_TYPES)) :
    enrichMessage fu fs cur v = .error (.invalidStructure (jsonStringify v)) := by
  have hinv : isValidMessageStructure v = false := by
    rcases h with h | ⟨kvs, rfl, hl⟩ | ⟨kvs, tv, rfl, hl, hstr⟩ | ⟨kvs, s, rfl, hl, hmem⟩
    · cases v with
      | obj kvs => exact absurd rfl (h kvs)
      | null => rfl
      | bool b => rfl
      | num n => rfl
      | str s => rfl
      | arr xs => rfl
    · simp [isValidMessageStructure, hl]
    · cases tv with
      | str s => exact absurd rfl (hstr s)
      | null => simp [isValidMessageStructure, hl]
      | bool b => simp [isValidMessageStructure, hl]
      | num n => simp [isValidMessageStructure, hl]
      | arr xs => simp [isValidMessageStructure, hl]
      | obj kv => simp [isValidMessageStructure, hl]
    · simp [isValidMessageStructure, hl, hmem]
  rw [enrichMessage_decomp]
  simp [hinv]

/-- Witness for the structural-rejection theorem: `null` and an object
with an out-of-set `type` are both rejected with the serialized value
carried in the error. -/
theorem enrichMessage_rejects_witness :
    enrichMessage "u1" "s1" none .null = .error (.invalidStructure "null") ∧
    enrichMessage "u1" "s1" none (.obj [("type", .str "bogus")]) =
      .error (.invalidStructure "\x7b\"type\":\"bogus\"\x7d") :=
  ⟨enrichMessage_rejects "u1" "s1" none .null
      (.inl (fun kvs h => JVal.noConfusion h)),
   enrichMessage_rejects "u1" "s1" none (.obj [("type", .str "bogus")])
      (.inr (.inr (.inr ⟨[("type", .str "bogus")], "bogus", rfl, rfl, by decide⟩)))⟩

/-- C10: for every input accepted by the transport's `enrichMessage`,
every field other than `uuid`, `session_id`, `parent_tool_use_id` and the
single per-type defaulted field appears unchanged in the output message —
enrichment never removes or rewrites existing payload fields. -/
theorem enrichMessage_frame (fu fs : String) (cur : Option String)
    (kvs : List (String × JVal)) (t : String) (out : JVal) (k : String)
    (henr : enrichMessage fu fs cur (.obj kvs) = .ok out)
    (ht : lookupKey kvs "type" = some (.str t))
    (h1 : k ≠ "uuid") (h2 : k ≠ "session_id") (h3 : k ≠ "parent_tool_use_id")
    (h4 : k ∉ defaultedFields t) :
    getField out k = getField (.obj kvs) k := by
  cases hval : isValidMessageStructure (.obj kvs) with
  | false =>
    rw [enrichMessage_decomp] at henr
    simp [hval] at henr
  | true =>
    rw [enrichMessage_decomp] at henr
    simp only [hval, if_true, if_pos] at henr
    have hout : out = perTypeStep (identityStep fu fs cur (.obj kvs)) := by
      cases henr
      rfl
    subst hout
    have htypeE : getField (identityStep fu fs cur (.obj kvs)) "type" = some (.str t) := by
      rw [identityStep_other fu fs cur kvs "type" (by decide) (by decide) (by decide)]
      exact ht
    rw [perTypeStep_preserves _ t htypeE k h4]
    rw [identityStep_other fu fs cur kvs k h1 h2 h3]
    rfl

/-- Witness for the frame theorem: enriching `{"type":"result","foo":7}`
leaves the payload field `foo` untouched. -/
theorem enrichMessage_frame_witness :
    getField (JVal.obj [("type", .str "result"), ("foo", .num 7),
      ("uuid", .str "u1"), ("session_id", .str "s1"),
      ("parent_tool_use_id", .null), ("subtype", .str "success")]) "foo" =
      getField (JVal.obj [("type", .str "result"), ("foo", .num 7)]) "foo" :=
  enrichMessage_frame "u1" "s1" none [("type", .str "result"), ("foo", .num 7)]
    "result"
    (.obj [("type", .str "result"), ("foo", .num 7),
      ("uuid", .str "u1"), ("session_id", .str "s1"),
      ("parent_tool_use_id", .null), ("subtype", .str "success")]) "foo"
    rfl rfl (by decide) (by decide) (by decide) (by decide)

/-- Counterexample to C8 as stated: the orchestrator's `enrichMessage`
tests identity fields with JavaScript truthiness, so a message of a known
type whose `uuid` is already a string — the empty string — has its uuid
regenerated (`message.uuid || generateUuid()`), not preserved. -/
theorem queryEnrich_empty_uuid_cex :
    getField
      (queryEnrichMessage "11111111-1111-4111-8111-111111111111" "fallback"
        (.obj [("type", .str "progress"), ("uuid", .str ""),
               ("session_id", .str "sess"), ("parent_tool_use_id", .str "p1"),
               ("message", .str "hi")])) "uuid" =
      some (.str "11111111-1111-4111-8111-111111111111") ∧
    getField
      (JVal.obj [("type", .str "progress"), ("uuid", .str ""),
        ("session_id", .str "sess"), ("parent_tool_use_id", .str "p1"),
        ("message", .str "hi")]) "uuid" = some (.str "") ∧
    (some (JVal.str "11111111-1111-4111-8111-111111111111") ≠
      some (JVal.str "")) := by
  refine ⟨rfl, rfl, ?_⟩
  intro h
  injection h with h1
  injection h1 with h2
  exact (by decide : ("11111111-1111-4111-8111-111111111111" : String) ≠ "") h2

/-- C8 as amended: the transport's `enrichMessage` preserves existing
string identity fields unconditionally, and the orchestrator's
`enrichMessage` returns the message unchanged — hence with the same
identity fields — provided `uuid` and `session_id` are non-empty strings
(JavaScript truthiness). -/
theorem enrich_identity_preserved (fu fs : String) (cur : Option String)
    (sid : String) (kvs : List (String × JVal)) (t u s p : String)
    (ht : lookupKey kvs "type" = some (.str t)) (hmem : t ∈ VALID_MESSAGE_TYPES)
    (hu : lookupKey kvs "uuid" = some (.str u))
    (hs : lookupKey kvs "session_id" = some (.str s))
    (hp : lookupKey kvs "parent_tool_use_id" = some (.str p)) :
    (∃ out, enrichMessage fu fs cur (.obj kvs) = .ok out ∧
      getField out "uuid" = some (.str u) ∧
      getField out "session_id" = some (.str s) ∧
      getField out "parent_tool_use_id" = some (.str p)) ∧
    (u ≠ "" → s ≠ "" → queryEnrichMessage fu sid (.obj kvs) = .obj kvs) := by
  have hvalid := valid_of_type_mem kvs t ht hmem
  have htypeE : getField (identityStep fu fs cur (.obj kvs)) "type" = some (.str t) := by
    rw [identityStep_other fu fs cur kvs "type" (by decide) (by decide) (by decide)]
    exact ht
  constructor
  · refine ⟨perTypeStep (identityStep fu fs cur (.obj kvs)), ?_, ?_, ?_, ?_⟩
    · rw [enrichMessage_decomp]
      simp [hvalid]
    · rw [perTypeStep_preserves _ t htypeE "uuid"
        (notMem_defaultedFields t "uuid" (by decide) (by decide) (by decide)),
        identityStep_uuid, hu]
    · rw [perTypeStep_preserves _ t htypeE "session_id"
        (notMem_defaultedFields t "session_id" (by decide) (by decide) (by decide)),
        identityStep_session, hs]
    · rw [perTypeStep_preserves _ t htypeE "parent_tool_use_id"
        (notMem_defaultedFields t "parent_tool_use_id" (by decide) (by decide) (by decide)),
        identityStep_parent, hp]
  · intro hu' hs'
    have h1 : truthyOpt (getField (.obj kvs) "uuid") = true := by
      simp [getField, hu, truthyOpt, truthy, hu']
    have h2 : truthyOpt (getField (.obj kvs) "session_id") = true := by
      simp [getField, hs, truthyOpt, truthy, hs']
    simp [queryEnrichMessage, h1, h2]

/-- Witness for the amended idempotence theorem at a fully-populated
progress message with non-empty identity strings. -/
theorem enrich_identity_preserved_witness :
    (∃ out, enrichMessage "f1" "f2" none
        (.obj [("type", .str "progress"), ("uuid", .str "u9"),
               ("session_id", .str "s9"), ("parent_tool_use_id", .str "p9")]) =
        .ok out ∧
      getField out "uuid" = some (.str "u9") ∧
      getField out "session_id" = some (.str "s9") ∧
      getField out "parent_tool_use_id" = some (.str "p9")) ∧
    queryEnrichMessage "f1" "sid"
        (.obj [("type", .str "progress"), ("uuid", .str "u9"),
               ("session_id", .str "s9"), ("parent_tool_use_id", .str "p9")]) =
      .obj [("type", .str "progress"), ("uuid", .str "u9"),
            ("session_id", .str "s9"), ("parent_tool_use_id", .str "p9")] :=
  ⟨(enrich_identity_preserved "f1" "f2" none "sid"
      [("type", .str "progress"), ("uuid", .str "u9"),
       ("session_id", .str "s9"), ("parent_tool_use_id", .str "p9")]
      "progress" "u9" "s9" "p9" rfl (by decide) rfl rfl rfl).1,
   (enrich_identity_preserved "f1" "f2" none "sid"
      [("type", .str "progress"), ("uuid", .str "u9"),
       ("session_id", .str "s9"), ("parent_tool_use_id", .str "p9")]
      "progress" "u9" "s9" "p9" rfl (by decide) rfl rfl rfl).2
      (by decide) (by decide)⟩

/-- C9: the standalone line parser accepts strictly more inputs than the
transport's structural gate — every input whose trimmed content
JSON-parses to a non-null object containing a `type` key is returned by
`parseLine` without error even when the `type` value is not a string or
lies outside the closed message-type set; in particular `{"type":42}` is
returned by `parseLine` but rejected by the transport's
`enrichMessage`. -/
theorem parseLine_gate_vs_enrichMessage :
    (∀ (line : List Char) (kvs : List (String × JVal)),
      jsonParse (trimChars line) = some (.obj kvs) →
      (lookupKey kvs "type").isSome = true →
      parseLine line = .ok (some (.obj kvs))) ∧
    parseLine ("\x7b\"type\":42\x7d".toList) = .ok (some (.obj [("type", .num 42)])) ∧
    (∀ (fu fs : String) (cur : Option String),
      enrichMessage fu fs cur (.obj [("type", .num 42)]) =
        .error (.invalidStructure "\x7b\"type\":42\x7d")) := by
  refine ⟨?_, rfl, fun fu fs cur => rfl⟩
  intro line kvs hparse htype
  by_cases he : (trimChars line).isEmpty = true
  · exfalso
    have hnil : trimChars line = [] := by
      cases h : trimChars line with
      | nil => rfl
      | cons c cs => rw [h] at he ; simp [List.isEmpty] at he
    rw [hnil] at hparse
    exact Option.noConfusion hparse
  · simp only [parseLine, he, Bool.false_eq_true, if_false, hparse, htype, if_true]

/-- Witness for the parser-gate theorem at a padded concrete line whose
`type` value is a number. -/
theorem parseLine_gate_vs_enrichMessage_witness :
    parseLine (" \x7b\"type\":42\x7d ".toList) =
      .ok (some (.obj [("type", .num 42)])) :=
  parseLine_gate_vs_enrichMessage.1 (" \x7b\"type\":42\x7d ".toList)
    [("type", .num 42)] rfl rfl

/-- Merge of the head of a later split into the trailing fragment of an
earlier split. -/
def glueHead (x : List Char) : List (List Char) → List (List Char)
  | [] => [x]
  | y :: ys => (x ++ y) :: ys

/-- Concatenation of two newline splits: all but the last piece of the
first split, then its last piece merged into the head of the second. -/
def glue : List (List Char) → List (List Char) → List (List Char)
  | [], ys => ys
  | x :: xs, ys =>
    match xs with
    | [] => glueHead x ys
    | _ :: _ => x :: glue xs ys

theorem splitNl_ne_nil (l : List Char) : splitNl l ≠ [] := by
  cases l with
  | nil => simp [splitNl]
  | cons c cs =>
    simp only [splitNl]
    by_cases h : c = '\n'
    · simp [h]
    · simp only [h, if_false]
      cases hs : splitNl cs <;> simp

theorem glueHead_ne_nil (x : List Char) (ys : List (List Char)) :
    glueHead x ys ≠ [] := by
  cases ys <;> simp [glueHead]

theorem glue_ne_nil (xs ys : List (List Char)) (hys : ys ≠ []) :
    glue xs ys ≠ [] := by
  cases xs with
  | nil => simpa [glue] using hys
  | cons x xs' =>
    cases xs' with
    | nil => simpa [glue] using glueHead_ne_nil x ys
    | cons a b => simp [glue]

theorem splitNl_append (a b : List Char) :
    splitNl (a ++ b) = glue (splitNl a) (splitNl b) := by
  induction a with
  | nil =>
    cases hb : splitNl b with
    | nil => exact absurd hb (splitNl_ne_nil b)
    | cons y ys => simp [splitNl, glue, glueHead, hb]
  | cons c cs ih =>
    by_cases h : c = '\n'
    · subst h
      cases hcs : splitNl cs with
      | nil => exact absurd hcs (splitNl_ne_nil cs)
      | cons p ps => simp [splitNl, glue, ih, hcs]
    · cases hcs : splitNl cs with
      | nil => exact absurd hcs (splitNl_ne_nil cs)
      | cons p ps =>
        cases ps with
        | nil =>
          cases hb : splitNl b with
          | nil => exact absurd hb (splitNl_ne_nil b)
          | cons y ys => simp [splitNl, h, ih, hcs, hb, glue, glueHead]
        | cons p2 ps2 => simp [splitNl, h, ih, hcs, glue]

theorem splitNl_no_newline (l : List Char) (h : '\n' ∉ l) : splitNl l = [l] := by
  induction l with
  | nil => rfl
  | cons c cs ih =>
    have hc : c ≠ '\n' := fun hc => h (hc ▸ List.mem_cons_self c cs)
    have hcs : '\n' ∉ cs := fun hm => h (List.mem_cons_of_mem c hm)
    simp [splitNl, hc, ih hcs]

theorem splitNl_mem_no_newline (l : List Char) (p : List Char)
    (hp : p ∈ splitNl l) : '\n' ∉ p := by
  induction l generalizing p with
  | nil =>
    simp [splitNl] at hp
    subst hp
    simp
  | cons c cs ih =>
    by_cases h : c = '\n'
    · subst h
      simp [splitNl] at hp
      rcases hp with hp1 | hp
      · subst hp1
        simp
      · exact ih p hp
    · cases hcs : splitNl cs with
      | nil => exact absurd hcs (splitNl_ne_nil cs)
      | cons q qs =>
        simp [splitNl, h, hcs] at hp
        rcases hp with hp1 | hp
        · subst hp1
          intro hm
          rcases List.mem_cons.mp hm with hm1 | hm2
          · exact h hm1.symm
          · exact ih q (by rw [hcs] ; exact List.mem_cons_self q qs) hm2
        · exact ih p (by rw [hcs] ; exact List.mem_cons_of_mem q hp)

theorem splitNl_append_newline (l : List Char) (h : '\n' ∉ l) :
    splitNl (l ++ ['\n']) = [l, []] := by
  rw [splitNl_append, splitNl_no_newline l h]
  simp [splitNl, glue, glueHead]

theorem consumeParts_cons₂ (out : List JVal) (l l2 : List Char)
    (rest : List (List Char)) :
    consumeParts out (l :: l2 :: rest) =
      match parseLine l with
      | .error e => .error e
      | .ok none => consumeParts out (l2 :: rest)
      | .ok (some m) => consumeParts (out ++ [m]) (l2 :: rest) := rfl

theorem consumeParts_glue (out : List JVal) (xs ys : List (List Char))
    (hys : ys ≠ []) :
    consumeParts out (glue xs ys) =
      match consumeParts out xs with
      | .error e => .error e
      | .ok (out1, buf1) => consumeParts out1 (glueHead buf1 ys) := by
  induction xs generalizing out with
  | nil =>
    cases ys with
    | nil => exact absurd rfl hys
    | cons y ys' => rfl
  | cons x xs' ih =>
    cases xs' with
    | nil => rfl
    | cons x2 xs'' =>
      have hg : glue (x2 :: xs'') ys ≠ [] := glue_ne_nil _ _ hys
      have hgl : glue (x :: x2 :: xs'') ys = x :: glue (x2 :: xs'') ys := rfl
      rw [hgl]
      cases hG : glue (x2 :: xs'') ys with
      | nil => exact absurd hG hg
      | cons g gs =>
        rw [consumeParts_cons₂, consumeParts_cons₂]
        cases hp : parseLine x with
        | error e =>
          simp only [hp]
        | ok o =>
          cases o with
          | none =>
            simp only [hp]
            rw [← hG]
            exact ih out
          | some m =>
            simp only [hp]
            rw [← hG]
            exact ih (out ++ [m])

theorem consumeParts_buf (out : List JVal) (xs : List (List Char))
    (out1 : List JVal) (buf1 : List Char)
    (h : consumeParts out xs = .ok (out1, buf1)) : buf1 ∈ xs ∨ buf1 = [] := by
  induction xs generalizing out with
  | nil =>
    simp [consumeParts] at h
    obtain ⟨h1, h2⟩ := h
    subst h2
    exact Or.inr rfl
  | cons l rest ih =>
    cases rest with
    | nil =>
      simp [consumeParts] at h
      obtain ⟨h1, h2⟩ := h
      subst h2
      exact Or.inl (List.mem_cons_self _ _)
    | cons l2 rest2 =>
      rw [consumeParts_cons₂] at h
      cases hp : parseLine l with
      | error e =>
        rw [hp] at h
        cases h
      | ok o =>
        cases o with
        | none =>
          rw [hp] at h
          rcases ih _ h with hm | hnil
          · exact Or.inl (List.mem_cons_of_mem _ hm)
          · exact Or.inr hnil
        | some m =>
          rw [hp] at h
          rcases ih _ h with hm | hnil
          · exact Or.inl (List.mem_cons_of_mem _ hm)
          · exact Or.inr hnil

theorem feedChunk_append (s : StreamState) (a b : List Char) :
    feedChunk s (a ++ b) =
      match feedChunk s a with
      | .error e => .error e
      | .ok s2 => feedChunk s2 b := by
  show (match consumeParts s.out (splitNl (s.buffer ++ (a ++ b))) with
        | .error e => (.error e : Except PErr StreamState)
        | .ok (out, buf) => .ok (⟨buf, out⟩ : StreamState)) =
      match feedChunk s a with
      | .error e => .error e
      | .ok s2 => feedChunk s2 b
  rw [show s.buffer ++ (a ++ b) = (s.buffer ++ a) ++ b from
    (List.append_assoc _ _ _).symm]
  rw [splitNl_append]
  rw [consumeParts_glue s.out _ _ (splitNl_ne_nil b)]
  cases hc : consumeParts s.out (splitNl (s.buffer ++ a)) with
  | error e => simp [feedChunk, hc]
  | ok p =>
    obtain ⟨out1, buf1⟩ := p
    have hbuf : '\n' ∉ buf1 := by
      rcases consumeParts_buf _ _ _ _ hc with hm | hnil
      · exact splitNl_mem_no_newline _ _ hm
      · subst hnil
        simp
    simp only [feedChunk, hc]
    rw [show (⟨buf1, out1⟩ : StreamState).buffer ++ b = buf1 ++ b from rfl,
      splitNl_append, splitNl_no_newline buf1 hbuf]
    rfl

theorem feedChunk_buffer_no_newline (s : StreamState) (c : List Char)
    (s2 : StreamState) (h : feedChunk s c = .ok s2) : '\n' ∉ s2.buffer := by
  unfold feedChunk at h
  cases hc : consumeParts s.out (splitNl (s.buffer ++ c)) with
  | error e =>
    rw [hc] at h
    cases h
  | ok p =>
    obtain ⟨o1, b1⟩ := p
    rw [hc] at h
    cases h
    rcases consumeParts_buf _ _ _ _ hc with hm | hnil
    · exact splitNl_mem_no_newline _ _ hm
    · subst hnil
      simp

theorem feedChunks_concat (chunks : List (List Char)) (s : StreamState)
    (hbuf : '\n' ∉ s.buffer) :
    feedChunks s chunks = feedChunk s (concatChunks chunks) := by
  induction chunks generalizing s with
  | nil =>
    show Except.ok s =
      (match consumeParts s.out (splitNl (s.buffer ++ [])) with
       | .error e => .error e
       | .ok (out, buf) => .ok (⟨buf, out⟩ : StreamState))
    rw [List.append_nil, splitNl_no_newline _ hbuf]
    rfl
  | cons c cs ih =>
    rw [show concatChunks (c :: cs) = c ++ concatChunks cs from rfl,
      feedChunk_append]
    cases hfc : feedChunk s c with
    | error e => simp [feedChunks, hfc]
    | ok s2 =>
      have h2 : '\n' ∉ s2.buffer := feedChunk_buffer_no_newline s c s2 hfc
      simp [feedChunks, hfc, ih s2 h2]

theorem parseLine_blank (l : List Char) (h : trimChars l = []) :
    parseLine l = .ok none := by
  simp [parseLine, h]

theorem parseLine_some_trim (l : List Char) (m : JVal)
    (h : parseLine l = .ok (some m)) : (trimChars l).isEmpty = false := by
  cases he : (trimChars l).isEmpty
  · rfl
  · exfalso
    have hnil : trimChars l = [] := by
      cases ht : trimChars l with
      | nil => rfl
      | cons c cs =>
        rw [ht] at he
        simp [List.isEmpty] at he
    rw [parseLine_blank l hnil] at h
    simp at h

theorem run_joined (lines : List (List Char)) (msgs : List JVal)
    (hy : LinesYield lines msgs) :
    (∀ l ∈ lines, '\n' ∉ l) → ∀ out : List JVal,
      (match feedChunk ⟨[], out⟩ (joinLines lines) with
       | .error e => (.error e : Except PErr (List JVal))
       | .ok s => finishStream s) = .ok (out ++ msgs) := by
  induction hy with
  | nil =>
    intro _ out
    simp [joinLines, feedChunk, splitNl, consumeParts, finishStream, trimChars]
  | blank l ls ms hb htail ih =>
    intro hnl out
    have hl : '\n' ∉ l := hnl l (List.mem_cons_self _ _)
    have hnl' : ∀ x ∈ ls, '\n' ∉ x := fun x hx => hnl x (List.mem_cons_of_mem _ hx)
    cases ls with
    | nil =>
      cases htail
      have h1 : feedChunk ⟨[], out⟩ l = .ok ⟨l, out⟩ := by
        simp [feedChunk, splitNl_no_newline l hl, consumeParts]
      rw [show joinLines [l] = l from rfl, h1]
      simp [finishStream, hb]
    | cons l2 ls2 =>
      have hj : joinLines (l :: l2 :: ls2) = (l ++ ['\n']) ++ joinLines (l2 :: ls2) := by
        simp [joinLines]
      rw [hj, feedChunk_append]
      have h1 : feedChunk ⟨[], out⟩ (l ++ ['\n']) = .ok ⟨[], out⟩ := by
        simp [feedChunk, splitNl_append_newline l hl, consumeParts,
          parseLine_blank l hb]
      rw [h1]
      exact ih hnl' out
  | msg l ls m ms hm htail ih =>
    intro hnl out
    have hl : '\n' ∉ l := hnl l (List.mem_cons_self _ _)
    have hnl' : ∀ x ∈ ls, '\n' ∉ x := fun x hx => hnl x (List.mem_cons_of_mem _ hx)
    cases ls with
    | nil =>
      cases htail
      have h1 : feedChunk ⟨[], out⟩ l = .ok ⟨l, out⟩ := by
        simp [feedChunk, splitNl_no_newline l hl, consumeParts]
      rw [show joinLines [l] = l from rfl, h1]
      have ht := parseLine_some_trim l m hm
      simp [finishStream, ht, hm]
    | cons l2 ls2 =>
      have hj : joinLines (l :: l2 :: ls2) = (l ++ ['\n']) ++ joinLines (l2 :: ls2) := by
        simp [joinLines]
      rw [hj, feedChunk_append]
      have h1 : feedChunk ⟨[], out⟩ (l ++ ['\n']) = .ok ⟨[], out ++ [m]⟩ := by
        simp [feedChunk, splitNl_append_newline l hl, consumeParts, hm]
      rw [h1]
      rw [ih hnl' (out ++ [m])]
      simp

/-- C3: for every byte stream formed by concatenating valid NDJSON lines
(blank lines permitted and skipped silently, final line possibly lacking
its trailing newline — model it as a trailing blank line being absent),
and for every partition of that stream into read chunks, including splits
in the middle of a line, `parseNDJSONStream` yields exactly the lines'
messages in the original order. -/
theorem parseNDJSONStream_roundtrip (lines : List (List Char)) (msgs : List JVal)
    (chunks : List (List Char)) (hy : LinesYield lines msgs)
    (hnl : ∀ l ∈ lines, '\n' ∉ l)
    (hc : concatChunks chunks = joinLines lines) :
    parseNDJSONStream chunks = .ok msgs := by
  show (match feedChunks ⟨[], []⟩ chunks with
        | .error e => (.error e : Except PErr (List JVal))
        | .ok s => finishStream s) = .ok msgs
  rw [feedChunks_concat chunks ⟨[], []⟩ (by simp), hc]
  have h := run_joined lines msgs hy hnl []
  simpa using h

/-- Witness for the stream round-trip: two NDJSON lines, the second split
across two read chunks and lacking its trailing newline, yield exactly the
two parsed messages in order. -/
theorem parseNDJSONStream_roundtrip_witness :
    parseNDJSONStream
      ["\x7b\"type\":\"result\"\x7d\n\x7b\"ty".toList, "pe\":\"system\"\x7d".toList] =
      .ok [.obj [("type", .str "result")], .obj [("type", .str "system")]] :=
  parseNDJSONStream_roundtrip
    ["\x7b\"type\":\"result\"\x7d".toList, "\x7b\"type\":\"system\"\x7d".toList]
    [.obj [("type", .str "result")], .obj [("type", .str "system")]]
    ["\x7b\"type\":\"result\"\x7d\n\x7b\"ty".toList, "pe\":\"system\"\x7d".toList]
    (LinesYield.msg _ _ _ _ rfl (LinesYield.msg _ _ _ _ rfl LinesYield.nil))
    (by decide) (by decide)
